import Mathlib

/-!
# Verification of the realtime audio session engine (`GeminiLiveService`)

Shallow embedding of `src/components/SoulVisualizer.tsx` (class `GeminiLiveService`,
lines 85-229) and of `src/App.tsx` (`startSession`, lines 74-114).

Modelling conventions:
* Times on the output clock and float audio samples are rationals (`ℚ`).
* The mutable instance fields of the class become the fields of `ServiceState`.
* Each operation is a pure function `ServiceState → ServiceState × List Event`,
  where `Event` records the externally observable actions (callback invocations,
  `source.start`/`source.stop` calls, resource-release attempts).
* Base64 payloads are represented by their decoded sample lists: `audio = none`
  models a message without an `inlineData.data` field (or with an empty, hence
  falsy, base64 string); `audio = some []` models a non-empty payload that
  decodes to zero bytes (the case checked at line 176); `decodeOk` models the
  outcome of the awaited `decodeAudioData` call (line 181), whose failure is
  caught at line 196.
-/

/- Batteries marks the `Rat` arithmetic operations `@[irreducible]`, which
blocks `decide` on closed rational computations (e.g. evaluating a concrete
playback schedule); restore their default reducibility for this file so that
concrete runs of the model evaluate. -/
set_option allowUnsafeReducibility true

attribute [local semireducible] Rat.add Rat.mul Rat.sub Rat.inv Rat.ofScientific

namespace Soul

/-- A scheduled output chunk: the `AudioBufferSourceNode` registered in the
`sources` set, identified by a monotonically increasing id, together with the
start time passed to `source.start` and its buffer's duration. -/
structure Chunk where
  id : ℕ
  startAt : ℚ
  duration : ℚ
  deriving DecidableEq, Repr

/-- Outcome of the `sessionPromise` (line 87): either the handshake rejected,
or it resolved with a session object that may or may not expose a `close`
method (line 225 checks `typeof session.close === 'function'`). -/
inductive SessP where
  | rejected
  | ok (hasClose : Bool)
  deriving DecidableEq, Repr

/-- Externally observable actions of the service. -/
inductive Event where
  /-- invocation of `this.config.onAudioData(audioBuffer)` (line 183), with the decoded samples. -/
  | audioData (samples : List ℚ)
  /-- call to `source.start(this.nextStartTime)` (line 193). -/
  | started (id : ℕ) (startAt : ℚ)
  /-- call to `source.stop()` during a flush (line 208). -/
  | stopped (id : ℕ)
  /-- the capture pipeline was installed by `handleOpen` (lines 150-168). -/
  | pipelineStarted
  /-- release attempt `track.stop()` on the microphone tracks (line 217). -/
  | attemptTrackStop
  /-- release attempt on the script processor (line 218). -/
  | attemptProcDisconnect
  /-- close attempt on the input (`true`) or output (`false`) context (lines 219-220). -/
  | attemptCtxClose (input : Bool)
  /-- best-effort `session.close()` attempted (line 225). -/
  | attemptSessionClose
  /-- invocation of `this.config.onError(new Error(cause))`. -/
  | errorCb (cause : String)
  /-- invocation of `this.config.onClose()`. -/
  | closeCb
  deriving DecidableEq, Repr

/-- The mutable fields of `GeminiLiveService` (lines 87-93).
`streamTracks`: `none` before `getUserMedia`, otherwise one `Bool` per track
(`true` = stopped). `processor`: `none` before `handleOpen`, `some true` while
connected, `some false` after `disconnect()`. `inputCtx`/`outputCtx`: `none`
before `connect` creates them, otherwise `some closed`. -/
structure ServiceState where
  nextStartTime : ℚ
  sources : List Chunk
  nextId : ℕ
  streamTracks : Option (List Bool)
  processor : Option Bool
  inputCtx : Option Bool
  outputCtx : Option Bool
  sessionPromise : Option SessP
  deriving DecidableEq, Repr

/-- Field initializers of the class (lines 87-93): `nextStartTime = 0`, empty
`sources` set, all resources unacquired. -/
def initialState : ServiceState :=
  ⟨0, [], 0, none, none, none, none, none⟩

/-- An inbound `LiveServerMessage`, abstracted to what lines 171-204 read:
the decoded audio payload (see the module comment for the `Option` convention),
whether the awaited `decodeAudioData` succeeds, and the `interrupted` flag. -/
structure LiveMessage where
  audio : Option (List ℚ)
  decodeOk : Bool
  interrupted : Bool
  deriving DecidableEq, Repr

/-- Duration of an `AudioBuffer` holding these mono samples at the fixed
24000 Hz output rate (context created at line 103). -/
def frameDuration (x : List ℚ) : ℚ :=
  (x.length : ℚ) / 24000

/-- Model of `stopAudioPlayback` (lines 206-214): stops every source in the pending set,
clears the set, and resets `nextStartTime` to `outputAudioContext.currentTime`
(guarded by the null check at line 211); `clock` is that current time. -/
def stopAudioPlayback (clock : ℚ) (s : ServiceState) : ServiceState × List Event :=
  ({ s with
      sources := []
      nextStartTime := if s.outputCtx.isSome then clock else s.nextStartTime },
   s.sources.map (fun ch => Event.stopped ch.id))

/-- Model of `handleMessage` (lines 171-204) as a single atomic transition (adequate when
message handlers do not overlap; the interleaved two-phase model is below).
`clock` is `outputAudioContext.currentTime` while the handler runs. Mirrors:
the truthiness guard `base64Audio && this.outputAudioContext` (line 174), the
early `return` on a zero-length decoded payload (line 176) - which also skips
the `interrupted` check at line 201 -, the unconditional
`nextStartTime = max(nextStartTime, currentTime)` (line 178), the
`try`/`catch` around `decodeAudioData` (lines 180-198), and the flush on
`interrupted` (lines 201-203). -/
def handleMessage (clock : ℚ) (m : LiveMessage) (s : ServiceState) :
    ServiceState × List Event :=
  match m.audio, s.outputCtx.isSome with
  | some x, true =>
    if x.isEmpty then (s, [])
    else
      let s0 := { s with nextStartTime := max s.nextStartTime clock }
      let r1 :=
        if m.decodeOk then
          let d := frameDuration x
          let chunk : Chunk := ⟨s0.nextId, s0.nextStartTime, d⟩
          (({ s0 with
               nextStartTime := s0.nextStartTime + d
               sources := s0.sources ++ [chunk]
               nextId := s0.nextId + 1 } : ServiceState),
           [Event.audioData x, Event.started s0.nextId s0.nextStartTime])
        else (s0, [])
      if m.interrupted then
        let r2 := stopAudioPlayback clock r1.1
        (r2.1, r1.2 ++ r2.2)
      else r1
  | _, _ =>
    if m.interrupted then stopAudioPlayback clock s else (s, [])

/-- The message built by lines 171-204 for a successfully decoded reply frame
with no interruption: the steady-state enqueue path. -/
def enqMsg (x : List ℚ) : LiveMessage :=
  ⟨some x, true, false⟩

/-- Sequential processing of a list of `(currentTime, decodedSamples)` reply
messages through `handleMessage`, accumulating emitted events. -/
def runEnqueues (s : ServiceState) : List (ℚ × List ℚ) → ServiceState × List Event
  | [] => (s, [])
  | (c, x) :: rest =>
    let r := handleMessage c (enqMsg x) s
    let r' := runEnqueues r.1 rest
    (r'.1, r.2 ++ r'.2)

/-- The start times passed to `source.start`, in emission order. -/
def starts (evs : List Event) : List ℚ :=
  evs.filterMap fun e => match e with | Event.started _ t => some t | _ => none

/-- The sample lists reported to `onAudioData`, in emission order. -/
def audioDatas (evs : List Event) : List (List ℚ) :=
  evs.filterMap fun e => match e with | Event.audioData x => some x | _ => none

/-- The spec's real-time proviso for one step: the clock at the next enqueue
has not passed the playback frontier built so far. -/
def nextOk (s : ServiceState) : List (ℚ × List ℚ) → Bool
  | [] => true
  | (c', _) :: _ => decide (c' ≤ s.nextStartTime)

/-- The real-time proviso along a whole run: each enqueue after the first
happens no later than the `nextStartTime` frontier left by its predecessor. -/
def timely (s : ServiceState) : List (ℚ × List ℚ) → Bool
  | [] => true
  | (c, x) :: rest =>
    let s1 := (handleMessage c (enqMsg x) s).1
    nextOk s1 rest && timely s1 rest

/-- A list of `(startAt, duration)` pairs is gapless when each start time is
the previous start time plus the previous duration. -/
def gapless : List (ℚ × ℚ) → Bool
  | (t, d) :: (t', d') :: rest => decide (t' = t + d) && gapless ((t', d') :: rest)
  | _ => true

/-! ## Lifecycle: `disconnect`, `handleOpen`, `connect`, `startSession` -/

/-- Which release primitives fail on a given `disconnect` call. The underlying
platform calls are fire-and-forget (`track.stop` does not throw,
`AudioContext.close` returns a promise the code does not await, the session
close is wrapped in `.then(...).catch(() => {})`), so a failing release leaves
its resource unreleased but never alters control flow; this record makes that
explicit so independence of the releases can be stated. -/
structure ReleaseFails where
  trackStop : Bool
  procDisconnect : Bool
  inputClose : Bool
  outputClose : Bool
  deriving DecidableEq, Repr

/-- All release primitives succeed. -/
def noFails : ReleaseFails :=
  ⟨false, false, false, false⟩

/-- Model of `disconnect` (lines 216-228). Each of the four synchronous releases is
guarded only by the optional-chaining null check on its own resource
(`stream?.`, `processor?.`, `inputAudioContext?.`, `outputAudioContext?.`);
the best-effort session close runs only if the promise resolved to an object
exposing `close`, and a rejected promise is swallowed by `.catch(() => {})`. -/
def disconnect (f : ReleaseFails) (s : ServiceState) : ServiceState × List Event :=
  let p1 : Option (List Bool) × List Event :=
    match s.streamTracks with
    | none => (none, [])
    | some ts => (some (ts.map (fun st => st || !f.trackStop)), [Event.attemptTrackStop])
  let p2 : Option Bool × List Event :=
    match s.processor with
    | none => (none, [])
    | some conn => (some (conn && f.procDisconnect), [Event.attemptProcDisconnect])
  let p3 : Option Bool × List Event :=
    match s.inputCtx with
    | none => (none, [])
    | some cl => (some (cl || !f.inputClose), [Event.attemptCtxClose true])
  let p4 : Option Bool × List Event :=
    match s.outputCtx with
    | none => (none, [])
    | some cl => (some (cl || !f.outputClose), [Event.attemptCtxClose false])
  let e5 : List Event :=
    match s.sessionPromise with
    | some (SessP.ok hasClose) => if hasClose then [Event.attemptSessionClose] else []
    | _ => []
  ({ s with
      streamTracks := p1.1
      processor := p2.1
      inputCtx := p3.1
      outputCtx := p4.1 },
   p1.2 ++ p2.2 ++ p3.2 ++ p4.2 ++ e5)

/-- Every resource that is held has been released: all microphone tracks
stopped, the processing node disconnected, both device contexts closed. -/
def allReleased (s : ServiceState) : Bool :=
  (match s.streamTracks with | none => true | some ts => ts.all id) &&
  (match s.processor with | none => true | some conn => !conn) &&
  (match s.inputCtx with | none => true | some cl => cl) &&
  (match s.outputCtx with | none => true | some cl => cl)

/-- Model of `handleOpen` (lines 146-169): guarded by
`if (!this.inputAudioContext || !this.stream) return;`, it creates the script
processor, installs the per-frame forwarding callback and wires it up - the
capture pipeline. -/
def handleOpen (s : ServiceState) : ServiceState × List Event :=
  if s.inputCtx.isSome && s.streamTracks.isSome then
    ({ s with processor := some true }, [Event.pipelineStarted])
  else (s, [])

/-- Environment outcomes of one `connect()` attempt: for each fallible setup
step, `none` means success and `some m` means it threw/rejected with platform
message `m` (possibly empty). `inputResume`/`outputResume` collapse "the
context started suspended and `resume()` rejected" (lines 107-108), `mic` is
`getUserMedia` (line 110), `handshake` is the awaited `live.connect` promise
(lines 113-137). -/
structure ConnectWorld where
  inputResume : Option String
  outputResume : Option String
  mic : Option String
  handshake : Option String
  sessionHasClose : Bool
  deriving DecidableEq, Repr

/-- Mirrors `err.message || "Failed to initialize connection"` (line 141). -/
def errMessage (m : String) : String :=
  if m = "" then "Failed to initialize connection" else m

/-- The `catch` block of `connect` (lines 139-143): report through
`onError` with a descriptive cause, then call `this.disconnect()`. -/
def connectCatch (m : String) (s : ServiceState) : ServiceState × List Event :=
  let r := disconnect noFails s
  (r.1, Event.errorCb (errMessage m) :: r.2)

/-- Model of `connect` (lines 101-144): creates both device contexts (lines 102-103,
before the `try`), then inside the `try` resumes them if suspended, acquires
the microphone, opens the session and awaits the handshake; on success the
network layer fires `onopen`, i.e. `handleOpen`. Any throw/rejection inside
the `try` lands in `connectCatch`. -/
def connect (w : ConnectWorld) (s : ServiceState) : ServiceState × List Event :=
  let s1 := { s with inputCtx := some false, outputCtx := some false }
  match w.inputResume, w.outputResume, w.mic with
  | some m, _, _ => connectCatch m s1
  | none, some m, _ => connectCatch m s1
  | none, none, some m => connectCatch m s1
  | none, none, none =>
    let s2 := { s1 with streamTracks := some [false] }
    match w.handshake with
    | some m => connectCatch m { s2 with sessionPromise := some SessP.rejected }
    | none => handleOpen { s2 with sessionPromise := some (SessP.ok w.sessionHasClose) }

/-- Whether any of the four fallible setup steps of this attempt fails. -/
def connectFails (w : ConnectWorld) : Bool :=
  w.inputResume.isSome || w.outputResume.isSome || w.mic.isSome || w.handshake.isSome

/-- Outcome of `startSession` in `src/App.tsx` (lines 74-114): with no
`API_KEY` it sets the error message and `AppState.ERROR` and returns before
ever constructing the service or calling `connect` (lines 75-80). -/
inductive AppOutcome where
  | missingKey
  | ran (result : ServiceState × List Event)
  deriving DecidableEq, Repr

/-- Model of `startSession` (App.tsx lines 74-114), restricted to whether and how the
service's `connect` is reached. -/
def startSession (apiKey : Option String) (w : ConnectWorld) (s : ServiceState) :
    AppOutcome :=
  match apiKey with
  | none => AppOutcome.missingKey
  | some _ => AppOutcome.ran (connect w s)

/-! ## Network-layer event dispatch -/

/-- Events delivered by the network layer to the callbacks registered at
lines 115-126: an error event, a close event, or a server message. -/
inductive NetEvent where
  | errorEvt
  | closeEvt
  | msgEvt (clock : ℚ) (m : LiveMessage)
  deriving DecidableEq, Repr

/-- The fixed cause built in the `onerror` callback (line 120). -/
def netErrorMessage : String :=
  "Network error: Unable to connect to Soul Interface."

/-- Dispatch of one network event: `onerror` forwards to `config.onError`
every time it fires (lines 118-121), `onclose` forwards to `config.onClose`
every time (lines 122-125), a message goes to `handleMessage`. -/
def dispatchNet (s : ServiceState) : NetEvent → ServiceState × List Event
  | NetEvent.errorEvt => (s, [Event.errorCb netErrorMessage])
  | NetEvent.closeEvt => (s, [Event.closeCb])
  | NetEvent.msgEvt c m => handleMessage c m s

/-- Sequential dispatch of a list of network events. -/
def runNet (s : ServiceState) : List NetEvent → ServiceState × List Event
  | [] => (s, [])
  | e :: rest =>
    let r := dispatchNet s e
    let r' := runNet r.1 rest
    (r'.1, r.2 ++ r'.2)

/-- Number of `onError` invocations in an event list. -/
def countErrorCbs (evs : List Event) : ℕ :=
  evs.countP fun e => match e with | Event.errorCb _ => true | _ => false

/-- Number of `onClose` invocations in an event list. -/
def countCloseCbs (evs : List Event) : ℕ :=
  evs.countP fun e => match e with | Event.closeCb => true | _ => false

def isErrorEvt : NetEvent → Bool
  | NetEvent.errorEvt => true
  | _ => false

def isCloseEvt : NetEvent → Bool
  | NetEvent.closeEvt => true
  | _ => false

/-! ## Session operations (for the `nextStartTime` invariant) -/

/-- Every operation that touches the service state during a session:
network-event dispatch (messages, error, close), the `'ended'` listener that
removes a finished source from the set (lines 189-191), and teardown. -/
inductive SessionOp where
  | net (e : NetEvent)
  | ended (id : ℕ)
  | teardown (f : ReleaseFails)
  deriving DecidableEq, Repr

/-- One step of the session. -/
def stepOp (s : ServiceState) : SessionOp → ServiceState × List Event
  | SessionOp.net e => dispatchNet s e
  | SessionOp.ended i =>
    ({ s with sources := s.sources.filter (fun ch => ch.id ≠ i) }, [])
  | SessionOp.teardown f => disconnect f s

/-- Whether a message reaches the flush at lines 201-203: it carries the
`interrupted` flag and is not short-circuited by the zero-length-payload
early return at line 176. -/
def earlyReturn (s : ServiceState) (m : LiveMessage) : Bool :=
  match m.audio with
  | some x => s.outputCtx.isSome && x.isEmpty
  | none => false

/-- Whether this operation performs the interruption flush. -/
def flushes (s : ServiceState) : SessionOp → Bool
  | SessionOp.net (NetEvent.msgEvt _ m) => m.interrupted && !earlyReturn s m
  | _ => false

/-- The output-clock reading carried by an operation (0 for clock-free ops). -/
def clockOf : SessionOp → ℚ
  | SessionOp.net (NetEvent.msgEvt c _) => c
  | _ => 0

/-! ## Two-phase model of `handleMessage` around the `await` (line 181)

`handleMessage` is `async` and suspends exactly once, at
`await decodeAudioData(...)`. Phase A is the synchronous prefix (lines
172-178): read the payload, return early if it decodes to zero bytes, update
`nextStartTime = max(nextStartTime, currentTime)`. Phase B is the
continuation after the await (lines 183-195) for a successful decode of a
non-interrupting message: report to `onAudioData`, then `source.start` at the
*current* value of the instance field `nextStartTime` (line 193 re-reads the
field, not a value saved in phase A) and advance it. Nothing in the code
serializes phase B of one message against phase A/B of another. -/

def phaseA (c : ℚ) (x : List ℚ) (s : ServiceState) : ServiceState :=
  if s.outputCtx.isSome && !x.isEmpty then
    { s with nextStartTime := max s.nextStartTime c }
  else s

def phaseB (x : List ℚ) (s : ServiceState) : ServiceState × List Event :=
  if s.outputCtx.isSome && !x.isEmpty then
    let d := frameDuration x
    let chunk : Chunk := ⟨s.nextId, s.nextStartTime, d⟩
    ({ s with
        nextStartTime := s.nextStartTime + d
        sources := s.sources ++ [chunk]
        nextId := s.nextId + 1 },
     [Event.audioData x, Event.started s.nextId s.nextStartTime])
  else (s, [])

/-- One interleaving action: run phase A or phase B of message `i`. -/
inductive PhaseAct where
  | A (i : ℕ)
  | B (i : ℕ)
  deriving DecidableEq, Repr

/-- Execute one action against the arrival list `msgs` of
`(currentTime, samples)` messages. -/
def execAct (msgs : List (ℚ × List ℚ)) (s : ServiceState) :
    PhaseAct → ServiceState × List Event
  | PhaseAct.A i =>
    match msgs.get? i with
    | some (c, x) => (phaseA c x s, [])
    | none => (s, [])
  | PhaseAct.B i =>
    match msgs.get? i with
    | some (_, x) => phaseB x s
    | none => (s, [])

/-- Execute a schedule (an interleaving of phase actions). -/
def execSched (msgs : List (ℚ × List ℚ)) (s : ServiceState) :
    List PhaseAct → ServiceState × List Event
  | [] => (s, [])
  | a :: rest =>
    let r := execAct msgs s a
    let r' := execSched msgs r.1 rest
    (r'.1, r.2 ++ r'.2)

/-- Position of the first occurrence of `a` in the list (length if absent). -/
def posOf (a : PhaseAct) : List PhaseAct → ℕ
  | [] => 0
  | b :: rest => if a = b then 0 else posOf a rest + 1

/-- A schedule the event loop can actually produce for `n` messages: each
phase runs exactly once, a message's phase A precedes its phase B (the
function body runs before its own continuation), and phase A's run in arrival
order (the network layer invokes `handleMessage` synchronously per message, in
order). Phase B's may complete in any order - decode timing is not under the
program's control. -/
def validSchedule (n : ℕ) (σ : List PhaseAct) : Bool :=
  (σ.length == 2 * n) &&
  (List.range n).all (fun i =>
    (σ.count (PhaseAct.A i) == 1) && (σ.count (PhaseAct.B i) == 1) &&
    decide (posOf (PhaseAct.A i) σ < posOf (PhaseAct.B i) σ)) &&
  (List.range n).all (fun i => (List.range n).all (fun j =>
    !(decide (i < j)) || decide (posOf (PhaseAct.A i) σ < posOf (PhaseAct.A j) σ)))

/-! ## PCM codec (spec-modelled) -/

/-- Modelled from the spec: the codec helpers (`createBlob`, `decode`,
`decodeAudioData` in `utils/audioUtils`) are imported by the service
(line 75) but the file is absent from the repository sources. Spec section 4.1:
`encode` converts each float sample `s ∈ [-1,1]` to a 16-bit signed integer via
`round(clamp(s,-1,1) * 32767)`; JS `Math.round x = ⌊x + 1/2⌋`. The
little-endian int16 packing and base64 envelope round-trip bytes identically
and are omitted, so a wire frame is the list of int16 values. -/
def encodeSample (s : ℚ) : ℤ :=
  ⌊max (-1) (min 1 s) * 32767 + 1 / 2⌋

/-- Modelled from the spec: the inverse transform normalizes each unpacked
int16 value to a float via `v / 32768` (spec section 4.1, `decode`). -/
def decodeSample (v : ℤ) : ℚ :=
  (v : ℚ) / 32768

/-- Modelled from the spec: `encode` applied samplewise to a raw frame. -/
def encodeFrame (l : List ℚ) : List ℤ :=
  l.map encodeSample

/-- Modelled from the spec: `decode` applied samplewise to a wire frame. -/
def decodeFrame (w : List ℤ) : List ℚ :=
  w.map decodeSample

/-- The round trip reproduces every sample of `l` within `bound`. -/
def roundTripWithin (bound : ℚ) (l : List ℚ) : Bool :=
  (l.zip (decodeFrame (encodeFrame l))).all fun p => decide (|p.2 - p.1| ≤ bound)

/-! ## Concrete states for witnesses and counterexamples -/

/-- A connected session: both contexts live, microphone and pipeline up. -/
def connState : ServiceState :=
  { initialState with
      streamTracks := some [false]
      processor := some true
      inputCtx := some false
      outputCtx := some false
      sessionPromise := some (SessP.ok true) }

/-- A connected session with one chunk pending and a playback frontier at 5. -/
def pendingState : ServiceState :=
  { connState with
      nextStartTime := 5
      sources := [⟨0, 0, 1⟩]
      nextId := 1 }
/-! ## Equation lemmas for `handleMessage` -/

/-- A message without an audio field only runs the `interrupted` check. -/
theorem hm_none (s : ServiceState) (c : ℚ) (dOk intr : Bool) :
    handleMessage c ⟨none, dOk, intr⟩ s =
      if intr then stopAudioPlayback c s else (s, []) := rfl

/-- With no output context the audio block is skipped (guard at line 174) but
the `interrupted` check still runs. -/
theorem hm_some_noCtx (s : ServiceState) (c : ℚ) (x : List ℚ) (dOk intr : Bool)
    (hctx : s.outputCtx.isSome = false) :
    handleMessage c ⟨some x, dOk, intr⟩ s =
      if intr then stopAudioPlayback c s else (s, []) := by
  obtain ⟨nst, src, nid, st, pr, ic, oc, sp⟩ := s
  cases oc with
  | none => rfl
  | some u => simp at hctx

/-- A payload decoding to zero bytes returns early (line 176). -/
theorem hm_some_empty (s : ServiceState) (c : ℚ) (dOk intr : Bool)
    (hctx : s.outputCtx.isSome = true) :
    handleMessage c ⟨some [], dOk, intr⟩ s = (s, []) := by
  obtain ⟨nst, src, nid, st, pr, ic, oc, sp⟩ := s
  cases oc with
  | none => simp at hctx
  | some u => rfl

/-- The steady-state enqueue path: non-empty successfully-decoded frame, no
interruption, output context live. -/
theorem hm_enq (s : ServiceState) (c : ℚ) (x : List ℚ)
    (hctx : s.outputCtx.isSome = true) (hx : x ≠ []) :
    handleMessage c (enqMsg x) s =
      ({ s with
          nextStartTime := max s.nextStartTime c + frameDuration x
          sources := s.sources ++ [Chunk.mk s.nextId (max s.nextStartTime c) (frameDuration x)]
          nextId := s.nextId + 1 },
       [Event.audioData x, Event.started s.nextId (max s.nextStartTime c)]) := by
  obtain ⟨nst, src, nid, st, pr, ic, oc, sp⟩ := s
  cases oc with
  | none => simp at hctx
  | some u =>
    cases x with
    | nil => exact absurd rfl hx
    | cons a as => rfl

/-- A non-empty frame whose `decodeAudioData` fails, no interruption: only the
line-178 `max` update happens (the `catch` at line 196 swallows the error). -/
theorem hm_decodeFail (s : ServiceState) (c : ℚ) (x : List ℚ)
    (hctx : s.outputCtx.isSome = true) (hx : x ≠ []) :
    handleMessage c ⟨some x, false, false⟩ s =
      ({ s with nextStartTime := max s.nextStartTime c }, []) := by
  obtain ⟨nst, src, nid, st, pr, ic, oc, sp⟩ := s
  cases oc with
  | none => simp at hctx
  | some u =>
    cases x with
    | nil => exact absurd rfl hx
    | cons a as => rfl

/-- A non-empty frame whose decode fails, with the interrupted flag: the flush
still runs (the `catch` falls through to line 201). -/
theorem hm_decodeFail_interrupt (s : ServiceState) (c : ℚ) (x : List ℚ)
    (hctx : s.outputCtx.isSome = true) (hx : x ≠ []) :
    handleMessage c ⟨some x, false, true⟩ s =
      ({ s with nextStartTime := c, sources := [] },
       s.sources.map fun ch => Event.stopped ch.id) := by
  obtain ⟨nst, src, nid, st, pr, ic, oc, sp⟩ := s
  cases oc with
  | none => simp at hctx
  | some u =>
    cases x with
    | nil => exact absurd rfl hx
    | cons a as => rfl

/-- A non-empty successfully-decoded frame carrying the interrupted flag:
decode, report, schedule, then flush everything including the new chunk. -/
theorem hm_audio_interrupt (s : ServiceState) (c : ℚ) (x : List ℚ)
    (hctx : s.outputCtx.isSome = true) (hx : x ≠ []) :
    handleMessage c ⟨some x, true, true⟩ s =
      ({ s with nextStartTime := c, sources := [], nextId := s.nextId + 1 },
       Event.audioData x :: Event.started s.nextId (max s.nextStartTime c) ::
         (s.sources ++ [Chunk.mk s.nextId (max s.nextStartTime c) (frameDuration x)]).map
           (fun ch => Event.stopped ch.id)) := by
  obtain ⟨nst, src, nid, st, pr, ic, oc, sp⟩ := s
  cases oc with
  | none => simp at hctx
  | some u =>
    cases x with
    | nil => exact absurd rfl hx
    | cons a as => rfl

theorem frameDuration_nonneg (x : List ℚ) : 0 ≤ frameDuration x := by
  unfold frameDuration
  positivity

/-! ## C8 - empty decoded payload is skipped silently -/

/-- C8: an inbound reply message whose audio payload decodes to zero bytes is
skipped silently - the state is unchanged (nothing scheduled, `nextStartTime`
not advanced) and no callback fires (`onAudioData` not invoked, no error),
whatever the decode outcome and interrupted flag. -/
theorem empty_payload_skipped (s : ServiceState) (c : ℚ) (dOk intr : Bool)
    (hctx : s.outputCtx.isSome = true) :
    handleMessage c ⟨some [], dOk, intr⟩ s = (s, []) := by
  obtain ⟨nst, src, nid, st, pr, ic, oc, sp⟩ := s
  cases oc with
  | none => simp at hctx
  | some u => rfl

/-- C8 witness: a concrete empty-payload message against a live session. -/
theorem empty_payload_skipped_check :
    handleMessage 0 ⟨some [], true, true⟩ connState = (connState, []) :=
  empty_payload_skipped connState 0 true true rfl

/-! ## C2 - interruption flush -/

/-- C2 counterexample: a message that carries the `interrupted` flag together
with an audio payload decoding to zero bytes takes the early return at line
176 and never reaches the flush at lines 201-203: the pending chunk is neither
stopped nor removed, and `nextStartTime` keeps its stale future value 5
instead of being reset to the clock value 3. This falsifies the claim that
*every* message carrying the interrupted flag clears the pending set and
resets `nextStartTime`. -/
theorem interrupted_flush_cex :
    (⟨some [], true, true⟩ : LiveMessage).interrupted = true
    ∧ (handleMessage 3 ⟨some [], true, true⟩ pendingState).1.sources = pendingState.sources
    ∧ pendingState.sources ≠ []
    ∧ (handleMessage 3 ⟨some [], true, true⟩ pendingState).1.nextStartTime = 5
    ∧ (handleMessage 3 ⟨some [], true, true⟩ pendingState).2 = [] := by
  decide

/-- C2 amended: whenever an inbound message carries the interrupted flag and is
not short-circuited by the zero-length-payload early return of line 176, every
chunk in the pending set (including ones already playing) is stopped, the
pending set is cleared, and `nextStartTime` is reset to the current
output-clock time, so the next enqueued frame is scheduled at the
interruption's timestamp. -/
theorem interrupted_flush (s : ServiceState) (c : ℚ) (m : LiveMessage)
    (hint : m.interrupted = true) (hng : earlyReturn s m = false)
    (hctx : s.outputCtx.isSome = true) :
    (handleMessage c m s).1.sources = []
    ∧ (handleMessage c m s).1.nextStartTime = c
    ∧ ∀ ch ∈ s.sources, Event.stopped ch.id ∈ (handleMessage c m s).2 := by
  obtain ⟨audio, dOk, intr⟩ := m
  cases intr with
  | false => exact Bool.noConfusion hint
  | true =>
    cases audio with
    | none =>
      rw [hm_none]
      simp only [if_true]
      refine ⟨rfl, by simp [stopAudioPlayback, hctx], fun ch hch => ?_⟩
      exact List.mem_map_of_mem _ hch
    | some x =>
      cases x with
      | nil => simp [earlyReturn, hctx] at hng
      | cons a as =>
        cases dOk with
        | false =>
          rw [hm_decodeFail_interrupt s c (a :: as) hctx (by simp)]
          exact ⟨rfl, rfl, fun ch hch => List.mem_map_of_mem _ hch⟩
        | true =>
          rw [hm_audio_interrupt s c (a :: as) hctx (by simp)]
          refine ⟨rfl, rfl, fun ch hch => ?_⟩
          exact List.mem_cons_of_mem _ (List.mem_cons_of_mem _
            (List.mem_map_of_mem _ (List.mem_append_left _ hch)))

/-- C2 amended witness: an interruption with one chunk pending, at clock 3. -/
theorem interrupted_flush_check :
    (handleMessage 3 ⟨none, true, true⟩ pendingState).1.sources = []
    ∧ (handleMessage 3 ⟨none, true, true⟩ pendingState).1.nextStartTime = 3
    ∧ ∀ ch ∈ pendingState.sources,
        Event.stopped ch.id ∈ (handleMessage 3 ⟨none, true, true⟩ pendingState).2 :=
  interrupted_flush pendingState 3 ⟨none, true, true⟩ rfl rfl rfl

/-! ## C10 - a message carrying both audio and the interrupted flag -/

/-- C10: for a single message with a non-empty audio payload and the
interrupted flag, the audio is first decoded, reported once to `onAudioData`,
and scheduled at `max(nextStartTime, now)`, and only afterwards is the flush
performed - so the message's own chunk (id `s.nextId`) is among the stopped
ones, the pending set ends empty and `nextStartTime` ends reset to the clock,
yet the observer was invoked for the frame. -/
theorem audio_then_interrupt (s : ServiceState) (c : ℚ) (x : List ℚ)
    (hctx : s.outputCtx.isSome = true) (hx : x ≠ []) :
    handleMessage c ⟨some x, true, true⟩ s =
      ({ s with nextStartTime := c, sources := [], nextId := s.nextId + 1 },
       Event.audioData x :: Event.started s.nextId (max s.nextStartTime c) ::
         (s.sources ++ [Chunk.mk s.nextId (max s.nextStartTime c) (frameDuration x)]).map
           (fun ch => Event.stopped ch.id)) :=
  hm_audio_interrupt s c x hctx hx

/-- C10 witness: a concrete two-sample frame with the interrupted flag against
a session with one chunk already pending. -/
theorem audio_then_interrupt_check :
    handleMessage 6 ⟨some [1, 1], true, true⟩ pendingState =
      ({ pendingState with nextStartTime := 6, sources := [], nextId := pendingState.nextId + 1 },
       Event.audioData [1, 1] ::
         Event.started pendingState.nextId (max pendingState.nextStartTime 6) ::
         (pendingState.sources ++
             [Chunk.mk pendingState.nextId (max pendingState.nextStartTime 6)
               (frameDuration [1, 1])]).map
           (fun ch => Event.stopped ch.id)) :=
  audio_then_interrupt pendingState 6 [1, 1] rfl (by decide)

/-! ## C5 - `nextStartTime` is monotone except for interruption resets -/

/-- C5: across every operation of a session - message handling (including
failed decodes), error and close dispatch, natural chunk completion, teardown -
`nextStartTime` never decreases, except that an operation performing the
interruption flush may reset it to the output-clock time carried by that
operation; no other operation ever decreases it. -/
theorem nextStartTime_monotone (s : ServiceState) (op : SessionOp) :
    s.nextStartTime ≤ (stepOp s op).1.nextStartTime
    ∨ (flushes s op = true ∧ (stepOp s op).1.nextStartTime = clockOf op) := by
  cases op with
  | ended i => exact Or.inl (le_of_eq rfl)
  | teardown f => exact Or.inl (le_of_eq rfl)
  | net e =>
    cases e with
    | errorEvt => exact Or.inl (le_of_eq rfl)
    | closeEvt => exact Or.inl (le_of_eq rfl)
    | msgEvt c m =>
      obtain ⟨audio, dOk, intr⟩ := m
      cases audio with
      | none =>
        cases intr with
        | false => exact Or.inl (le_of_eq rfl)
        | true =>
          cases hctx : s.outputCtx.isSome with
          | true =>
            refine Or.inr ⟨by simp [flushes, earlyReturn], ?_⟩
            simp [stepOp, dispatchNet, hm_none, stopAudioPlayback, hctx, clockOf]
          | false =>
            left
            simp [stepOp, dispatchNet, hm_none, stopAudioPlayback, hctx]
      | some x =>
        cases hctx : s.outputCtx.isSome with
        | false =>
          left
          cases intr with
          | false =>
            simp [stepOp, dispatchNet, hm_some_noCtx s c x dOk false hctx]
          | true =>
            simp [stepOp, dispatchNet, hm_some_noCtx s c x dOk true hctx,
              stopAudioPlayback, hctx]
        | true =>
          cases x with
          | nil =>
            left
            simp [stepOp, dispatchNet, hm_some_empty s c dOk intr hctx]
          | cons a as =>
            cases dOk with
            | true =>
              cases intr with
              | false =>
                left
                have h := hm_enq s c (a :: as) hctx (by simp)
                simp only [stepOp, dispatchNet, enqMsg] at *
                rw [h]
                exact le_trans (le_max_left _ _)
                  (le_add_of_nonneg_right (frameDuration_nonneg _))
              | true =>
                refine Or.inr ⟨by simp [flushes, earlyReturn, hctx], ?_⟩
                have h := hm_audio_interrupt s c (a :: as) hctx (by simp)
                simp only [stepOp, dispatchNet, clockOf]
                rw [h]
            | false =>
              cases intr with
              | false =>
                left
                have h := hm_decodeFail s c (a :: as) hctx (by simp)
                simp only [stepOp, dispatchNet]
                rw [h]
                exact le_max_left _ _
              | true =>
                refine Or.inr ⟨by simp [flushes, earlyReturn, hctx], ?_⟩
                have h := hm_decodeFail_interrupt s c (a :: as) hctx (by simp)
                simp only [stepOp, dispatchNet, clockOf]
                rw [h]

/-! ## C1 - gapless scheduling -/

theorem starts_append (l1 l2 : List Event) :
    starts (l1 ++ l2) = starts l1 ++ starts l2 := by
  unfold starts
  exact List.filterMap_append _ _ _

/-- The first scheduled start of a non-empty enqueue run is
`max(nextStartTime, clock)`, and the run continues from the updated state. -/
theorem starts_runEnqueues_cons (s : ServiceState) (c : ℚ) (x : List ℚ)
    (rest : List (ℚ × List ℚ)) (hctx : s.outputCtx.isSome = true) (hx : x ≠ []) :
    starts (runEnqueues s ((c, x) :: rest)).2 =
      max s.nextStartTime c ::
        starts (runEnqueues (handleMessage c (enqMsg x) s).1 rest).2 := by
  have h := hm_enq s c x hctx hx
  show starts ((handleMessage c (enqMsg x) s).2 ++
      (runEnqueues (handleMessage c (enqMsg x) s).1 rest).2) = _
  rw [starts_append, h]
  rfl

/-- C1: (a) each enqueued non-empty decoded frame is reported and scheduled to
start at `startAt = max(nextPlaybackTime, outputClockNow())`, and
`nextPlaybackTime` is advanced to `startAt + frame.duration`; (b) therefore,
for every sequence of such frames with no interruption, provided enqueues
happen no slower than real-time playback consumption (`timely`), each frame's
scheduled start time equals the previous frame's start plus its duration. -/
theorem gapless_scheduling :
    (∀ (s : ServiceState) (c : ℚ) (x : List ℚ),
        s.outputCtx.isSome = true → x ≠ [] →
        (handleMessage c (enqMsg x) s).2 =
          [Event.audioData x, Event.started s.nextId (max s.nextStartTime c)]
        ∧ (handleMessage c (enqMsg x) s).1.nextStartTime
            = max s.nextStartTime c + frameDuration x)
    ∧ (∀ (s : ServiceState) (msgs : List (ℚ × List ℚ)),
        s.outputCtx.isSome = true → (∀ p ∈ msgs, p.2 ≠ []) →
        timely s msgs = true →
        gapless ((starts (runEnqueues s msgs).2).zip
          (msgs.map fun p => frameDuration p.2)) = true) := by
  constructor
  · intro s c x hctx hx
    rw [hm_enq s c x hctx hx]
    exact ⟨rfl, rfl⟩
  · intro s msgs
    induction msgs generalizing s with
    | nil => intro _ _ _; rfl
    | cons hd rest ih =>
      intro hctx hne ht
      obtain ⟨c, x⟩ := hd
      have hx : x ≠ [] := hne (c, x) (List.mem_cons_self _ _)
      have hne' : ∀ p ∈ rest, p.2 ≠ [] := fun p hp => hne p (List.mem_cons_of_mem _ hp)
      have h := hm_enq s c x hctx hx
      have hctx1 : (handleMessage c (enqMsg x) s).1.outputCtx.isSome = true := by
        rw [h]; exact hctx
      have hnst1 : (handleMessage c (enqMsg x) s).1.nextStartTime
          = max s.nextStartTime c + frameDuration x := by
        rw [h]
      have ht2 : nextOk (handleMessage c (enqMsg x) s).1 rest = true
          ∧ timely (handleMessage c (enqMsg x) s).1 rest = true := by
        rw [timely] at ht
        exact Bool.and_eq_true_iff.mp ht
      cases rest with
      | nil =>
        rw [starts_runEnqueues_cons s c x [] hctx hx]
        rfl
      | cons hd' rest' =>
        obtain ⟨c', x'⟩ := hd'
        have hx' : x' ≠ [] := hne' (c', x') (List.mem_cons_self _ _)
        have hc' : c' ≤ (handleMessage c (enqMsg x) s).1.nextStartTime := by
          have := ht2.1
          rw [nextOk] at this
          exact of_decide_eq_true this
        have hih := ih (handleMessage c (enqMsg x) s).1 hctx1 hne' ht2.2
        rw [starts_runEnqueues_cons _ c' x' rest' hctx1 hx', List.map_cons,
          List.zip_cons_cons] at hih
        rw [starts_runEnqueues_cons s c x ((c', x') :: rest') hctx hx,
          starts_runEnqueues_cons _ c' x' rest' hctx1 hx',
          List.map_cons, List.map_cons, List.zip_cons_cons, List.zip_cons_cons,
          gapless]
        rw [Bool.and_eq_true_iff]
        refine ⟨decide_eq_true ?_, hih⟩
        rw [max_eq_left hc', hnst1]

/-- C1 witness: three frames enqueued back-to-back at clock 0 from a fresh
connected session are scheduled gaplessly, and a single enqueue advances the
frontier by exactly the frame duration. -/
theorem gapless_scheduling_check :
    ((handleMessage 0 (enqMsg [1]) connState).1.nextStartTime
        = max connState.nextStartTime 0 + frameDuration [1])
    ∧ gapless ((starts (runEnqueues connState [(0, [1]), (0, [1, 1]), (0, [1])]).2).zip
        ([(0, [1]), (0, [1, 1]), (0, [1])].map fun p => frameDuration p.2)) = true :=
  ⟨(gapless_scheduling.1 connState 0 [1] rfl (by decide)).2,
   gapless_scheduling.2 connState [(0, [1]), (0, [1, 1]), (0, [1])] rfl
     (by decide) (by decide)⟩

/-! ## C3 - `disconnect` is safe, exhaustive, independent, idempotent -/

/-- C3: from any lifecycle state and for any pattern of release failures,
`disconnect` (a) with working primitives releases every held resource
(tracks stopped, processor disconnected, both contexts closed), (b) is
idempotent on the state - a second call changes nothing - and (c) attempts
every release independently: whatever fails elsewhere, each held resource
gets its release attempt, and the session close is attempted whenever the
handshake promise resolved to a closable session. The model is a total
function: none of the underlying calls can raise out of `disconnect` (stops
and closes are fire-and-forget, the session close is `.catch`-guarded). -/
theorem disconnect_safe (s : ServiceState) (f : ReleaseFails) :
    allReleased (disconnect noFails s).1 = true
    ∧ (disconnect noFails (disconnect noFails s).1).1 = (disconnect noFails s).1
    ∧ (s.streamTracks.isSome = true → Event.attemptTrackStop ∈ (disconnect f s).2)
    ∧ (s.processor.isSome = true → Event.attemptProcDisconnect ∈ (disconnect f s).2)
    ∧ (s.inputCtx.isSome = true → Event.attemptCtxClose true ∈ (disconnect f s).2)
    ∧ (s.outputCtx.isSome = true → Event.attemptCtxClose false ∈ (disconnect f s).2)
    ∧ (s.sessionPromise = some (SessP.ok true) →
        Event.attemptSessionClose ∈ (disconnect f s).2) := by
  obtain ⟨nst, src, nid, st, pr, ic, oc, sp⟩ := s
  refine ⟨?_, ?_, ?_, ?_, ?_, ?_, ?_⟩
  · cases st <;> cases pr <;> cases ic <;> cases oc <;>
      simp [disconnect, allReleased, noFails]
  · cases st <;> cases pr <;> cases ic <;> cases oc <;>
      simp [disconnect, noFails, List.map_map, Function.comp]
  · intro h
    cases st with
    | none => simp at h
    | some ts => simp [disconnect]
  · intro h
    cases pr with
    | none => simp at h
    | some conn => cases st <;> simp [disconnect]
  · intro h
    cases ic with
    | none => simp at h
    | some cl => cases st <;> cases pr <;> simp [disconnect]
  · intro h
    cases oc with
    | none => simp at h
    | some cl => cases st <;> cases pr <;> cases ic <;> simp [disconnect]
  · intro h
    subst h
    cases st <;> cases pr <;> cases ic <;> cases oc <;> simp [disconnect]

/-- C3 witness: a fully connected session, with the track-stop and
input-context-close primitives failing on the second instantiation. -/
theorem disconnect_safe_check :
    allReleased (disconnect noFails connState).1 = true
    ∧ Event.attemptTrackStop ∈ (disconnect ⟨true, false, true, false⟩ connState).2
    ∧ Event.attemptCtxClose false ∈ (disconnect ⟨true, false, true, false⟩ connState).2
    ∧ Event.attemptSessionClose ∈ (disconnect ⟨true, false, true, false⟩ connState).2 :=
  ⟨(disconnect_safe connState noFails).1,
   (disconnect_safe connState ⟨true, false, true, false⟩).2.2.1 rfl,
   (disconnect_safe connState ⟨true, false, true, false⟩).2.2.2.2.2.1 rfl,
   (disconnect_safe connState ⟨true, false, true, false⟩).2.2.2.2.2.2 rfl⟩

/-! ## C4 - connect failures are reported via `onError`, no pipeline started -/

/-- Everything `disconnect` emits is a release attempt. -/
theorem disconnect_events_shape (f : ReleaseFails) (s : ServiceState) (e : Event)
    (he : e ∈ (disconnect f s).2) :
    e = Event.attemptTrackStop ∨ e = Event.attemptProcDisconnect
    ∨ e = Event.attemptCtxClose true ∨ e = Event.attemptCtxClose false
    ∨ e = Event.attemptSessionClose := by
  obtain ⟨nst, src, nid, st, pr, ic, oc, sp⟩ := s
  rcases sp with _ | sp'
  · cases st <;> cases pr <;> cases ic <;> cases oc <;>
      simp [disconnect] at he <;> tauto
  · rcases sp' with _ | b
    · cases st <;> cases pr <;> cases ic <;> cases oc <;>
        simp [disconnect] at he <;> tauto
    · cases b <;> cases st <;> cases pr <;> cases ic <;> cases oc <;>
        simp [disconnect] at he <;> tauto

theorem disconnect_no_errorCb (f : ReleaseFails) (s : ServiceState) :
    countErrorCbs (disconnect f s).2 = 0 := by
  unfold countErrorCbs
  rw [List.countP_eq_zero]
  intro e he
  rcases disconnect_events_shape f s e he with h | h | h | h | h <;> subst h <;> decide

theorem disconnect_processor (f : ReleaseFails) (s : ServiceState)
    (h : s.processor = none) : (disconnect f s).1.processor = none := by
  obtain ⟨nst, src, nid, st, pr, ic, oc, sp⟩ := s
  cases pr with
  | none => cases st <;> cases ic <;> cases oc <;> rfl
  | some conn => simp at h

/-- The default cause is substituted for an empty platform message, so every
reported cause is a non-empty string. -/
theorem errMessage_ne_empty (m : String) : errMessage m ≠ "" := by
  unfold errMessage
  split
  · intro h
    simp at h
  · assumption

theorem connectCatch_events (m : String) (s : ServiceState) :
    (connectCatch m s).2 = Event.errorCb (errMessage m) :: (disconnect noFails s).2 := rfl

/-- C4: (a) with no credential, `startSession` reports at the app level and
never reaches `connect` (so no pipeline is ever started); (b) for every
`connect()` attempt in which some setup step fails - device-context resume,
microphone acquisition, or the awaited handshake (where a bad credential
surfaces) - `onError` is invoked exactly once, every reported cause is a
non-empty string, no capture pipeline is ever installed, and no exception
escapes (`connect` is total: every fallible step is inside the `try`). -/
theorem connect_failures_reported (key : Option String) (w : ConnectWorld)
    (s : ServiceState) (hproc : s.processor = none) :
    (key = none → startSession key w s = AppOutcome.missingKey)
    ∧ (connectFails w = true →
        countErrorCbs (connect w s).2 = 1
        ∧ (∀ cause, Event.errorCb cause ∈ (connect w s).2 → cause ≠ "")
        ∧ (connect w s).1.processor = none
        ∧ Event.pipelineStarted ∉ (connect w s).2) := by
  constructor
  · intro h
    subst h
    rfl
  · intro hfail
    obtain ⟨ir, og, mic, hs, hc⟩ := w
    have catchCase : ∀ (m : String) (s' : ServiceState), s'.processor = none →
        countErrorCbs (connectCatch m s').2 = 1
        ∧ (∀ cause, Event.errorCb cause ∈ (connectCatch m s').2 → cause ≠ "")
        ∧ (connectCatch m s').1.processor = none
        ∧ Event.pipelineStarted ∉ (connectCatch m s').2 := by
      intro m s' hp
      refine ⟨?_, ?_, ?_, ?_⟩
      · rw [connectCatch_events]
        have h0 := disconnect_no_errorCb noFails s'
        unfold countErrorCbs at h0 ⊢
        rw [List.countP_cons, h0]
        rfl
      · intro cause hm
        rw [connectCatch_events] at hm
        rcases List.mem_cons.mp hm with h | h
        · cases h
          exact errMessage_ne_empty m
        · rcases disconnect_events_shape _ _ _ h with h' | h' | h' | h' | h' <;> cases h'
      · exact disconnect_processor _ _ hp
      · intro hm
        rw [connectCatch_events] at hm
        rcases List.mem_cons.mp hm with h | h
        · cases h
        · rcases disconnect_events_shape _ _ _ h with h' | h' | h' | h' | h' <;> cases h'
    cases ir with
    | some m => exact catchCase m _ hproc
    | none =>
    cases og with
    | some m => exact catchCase m _ hproc
    | none =>
    cases mic with
    | some m => exact catchCase m _ hproc
    | none =>
    cases hs with
    | some m => exact catchCase m _ hproc
    | none => exact Bool.noConfusion hfail

/-- C4 witness: a missing credential never reaches `connect`; a denied
microphone on a fresh service reports exactly one non-empty cause through
`onError` and installs no capture pipeline. -/
theorem connect_failures_reported_check :
    startSession none ⟨none, none, some "mic denied", none, true⟩ initialState
        = AppOutcome.missingKey
    ∧ countErrorCbs (connect ⟨none, none, some "mic denied", none, true⟩ initialState).2 = 1
    ∧ (connect ⟨none, none, some "mic denied", none, true⟩ initialState).1.processor = none
    ∧ Event.pipelineStarted ∉
        (connect ⟨none, none, some "mic denied", none, true⟩ initialState).2 :=
  ⟨(connect_failures_reported none ⟨none, none, some "mic denied", none, true⟩
      initialState rfl).1 rfl,
   ((connect_failures_reported (some "k") ⟨none, none, some "mic denied", none, true⟩
      initialState rfl).2 rfl).1,
   ((connect_failures_reported (some "k") ⟨none, none, some "mic denied", none, true⟩
      initialState rfl).2 rfl).2.2.1,
   ((connect_failures_reported (some "k") ⟨none, none, some "mic denied", none, true⟩
      initialState rfl).2 rfl).2.2.2⟩

/-! ## C6 - callback multiplicity -/

/-- Scheduler-side events: observer report, start, stop. -/
def isSchedulerEvent : Event → Bool
  | Event.audioData _ => true
  | Event.started _ _ => true
  | Event.stopped _ => true
  | _ => false

/-- Lemma: `handleMessage` only reports frames and starts/stops sources: it never
invokes `onError` or `onClose` itself (decode failures are swallowed by the
`catch` at line 196). -/
theorem handleMessage_events_scheduler (c : ℚ) (m : LiveMessage) (s : ServiceState) :
    ∀ e ∈ (handleMessage c m s).2, isSchedulerEvent e = true := by
  intro e he
  obtain ⟨audio, dOk, intr⟩ := m
  rcases audio with _ | x
  · rw [hm_none] at he
    cases intr with
    | false => simp at he
    | true =>
      simp [stopAudioPlayback] at he
      obtain ⟨ch, hch, rfl⟩ := he
      rfl
  · cases hoc : s.outputCtx.isSome with
    | false =>
      rw [hm_some_noCtx s c x dOk intr hoc] at he
      cases intr with
      | false => simp at he
      | true =>
        simp [stopAudioPlayback] at he
        obtain ⟨ch, hch, rfl⟩ := he
        rfl
    | true =>
      cases x with
      | nil =>
        rw [hm_some_empty s c dOk intr hoc] at he
        simp at he
      | cons a as =>
        cases dOk with
        | true =>
          cases intr with
          | false =>
            have heq := hm_enq s c (a :: as) hoc (by simp)
            rw [show enqMsg (a :: as) = ⟨some (a :: as), true, false⟩ from rfl] at heq
            rw [heq] at he
            simp at he
            rcases he with rfl | rfl <;> rfl
          | true =>
            rw [hm_audio_interrupt s c (a :: as) hoc (by simp)] at he
            simp at he
            rcases he with rfl | rfl | ⟨ch, hch, rfl⟩ | rfl <;> rfl
        | false =>
          cases intr with
          | false =>
            rw [hm_decodeFail s c (a :: as) hoc (by simp)] at he
            simp at he
          | true =>
            rw [hm_decodeFail_interrupt s c (a :: as) hoc (by simp)] at he
            simp at he
            obtain ⟨ch, hch, rfl⟩ := he
            rfl

theorem countErrorCbs_append (l1 l2 : List Event) :
    countErrorCbs (l1 ++ l2) = countErrorCbs l1 + countErrorCbs l2 :=
  List.countP_append _ _ _

theorem countCloseCbs_append (l1 l2 : List Event) :
    countCloseCbs (l1 ++ l2) = countCloseCbs l1 + countCloseCbs l2 :=
  List.countP_append _ _ _

theorem countErrorCbs_scheduler (l : List Event)
    (h : ∀ e ∈ l, isSchedulerEvent e = true) : countErrorCbs l = 0 := by
  unfold countErrorCbs
  rw [List.countP_eq_zero]
  intro e he
  have := h e he
  cases e <;> simp_all [isSchedulerEvent]

theorem countCloseCbs_scheduler (l : List Event)
    (h : ∀ e ∈ l, isSchedulerEvent e = true) : countCloseCbs l = 0 := by
  unfold countCloseCbs
  rw [List.countP_eq_zero]
  intro e he
  have := h e he
  cases e <;> simp_all [isSchedulerEvent]

/-- C6 counterexample: the `onerror` callback forwards to `config.onError`
every time the network layer fires it (lines 118-121); nothing caps it at one
per session. A session observing two network error events invokes `onError`
twice, falsifying "invoked at most once per session". -/
theorem callback_once_cex :
    countErrorCbs (runNet connState [NetEvent.errorEvt, NetEvent.errorEvt]).2 = 2
    ∧ ¬ countErrorCbs (runNet connState [NetEvent.errorEvt, NetEvent.errorEvt]).2 ≤ 1 := by
  decide

/-- C6 amended: `onError` is invoked exactly once per network error event and
`onClose` exactly once per close event - message handling never invokes
either - so a session invokes each callback exactly as many times as the
network layer fires the corresponding event (with no at-most-once cap; the
`catch` in `connect` can add one further `onError` on a failed handshake). -/
theorem callbacks_per_event (s : ServiceState) (evts : List NetEvent) :
    countErrorCbs (runNet s evts).2 = evts.countP isErrorEvt
    ∧ countCloseCbs (runNet s evts).2 = evts.countP isCloseEvt := by
  induction evts generalizing s with
  | nil => exact ⟨rfl, rfl⟩
  | cons e rest ih =>
    have hih := ih (dispatchNet s e).1
    have happ : (runNet s (e :: rest)).2
        = (dispatchNet s e).2 ++ (runNet (dispatchNet s e).1 rest).2 := rfl
    cases e with
    | errorEvt =>
      refine ⟨?_, ?_⟩
      · rw [happ, countErrorCbs_append, hih.1, List.countP_cons]
        simp [countErrorCbs, dispatchNet, isErrorEvt, Nat.add_comm]
      · rw [happ, countCloseCbs_append, hih.2, List.countP_cons]
        simp [countCloseCbs, dispatchNet, isCloseEvt]
    | closeEvt =>
      refine ⟨?_, ?_⟩
      · rw [happ, countErrorCbs_append, hih.1, List.countP_cons]
        simp [countErrorCbs, dispatchNet, isErrorEvt]
      · rw [happ, countCloseCbs_append, hih.2, List.countP_cons]
        simp [countCloseCbs, dispatchNet, isCloseEvt, Nat.add_comm]
    | msgEvt c m =>
      have hz1 := countErrorCbs_scheduler _ (handleMessage_events_scheduler c m s)
      have hz2 := countCloseCbs_scheduler _ (handleMessage_events_scheduler c m s)
      refine ⟨?_, ?_⟩
      · rw [happ, countErrorCbs_append, hih.1, List.countP_cons]
        rw [show (dispatchNet s (NetEvent.msgEvt c m)).2 = (handleMessage c m s).2 from rfl,
          hz1]
        simp [isErrorEvt]
      · rw [happ, countCloseCbs_append, hih.2, List.countP_cons]
        rw [show (dispatchNet s (NetEvent.msgEvt c m)).2 = (handleMessage c m s).2 from rfl,
          hz2]
        simp [isCloseEvt]

/-! ## C9 - ordering of decode-then-schedule -/

/-- The atomic `handleMessage` on the enqueue path is exactly phase A followed
immediately by its own phase B: sequential (non-overlapping) processing. -/
theorem handleMessage_phases (c : ℚ) (x : List ℚ) (s : ServiceState) :
    handleMessage c (enqMsg x) s = phaseB x (phaseA c x s) := by
  obtain ⟨nst, src, nid, st, pr, ic, oc, sp⟩ := s
  cases oc with
  | none => cases x <;> rfl
  | some u => cases x <;> rfl

theorem audioDatas_append (l1 l2 : List Event) :
    audioDatas (l1 ++ l2) = audioDatas l1 ++ audioDatas l2 := by
  unfold audioDatas
  exact List.filterMap_append _ _ _

/-- C9 counterexample: the event loop may run both messages' synchronous
prefixes (phase A) before either decode continuation (phase B); the schedule
`[A 0, A 1, B 1, B 0]` is valid - each message's A precedes its B and the A's
are in arrival order - yet the second message's frame is reported to
`onAudioData` (and scheduled) before the first message's: nothing in the code
serializes the decode-then-schedule critical section. -/
theorem in_order_cex :
    validSchedule 2 [PhaseAct.A 0, PhaseAct.A 1, PhaseAct.B 1, PhaseAct.B 0] = true
    ∧ audioDatas (execSched [(0, [1]), (0, [1, 1])] connState
        [PhaseAct.A 0, PhaseAct.A 1, PhaseAct.B 1, PhaseAct.B 0]).2 = [[1, 1], [1]]
    ∧ [[1, 1], [1]] ≠ [(0, [1]), (0, [1, 1])].map Prod.snd := by
  decide

/-- C9 amended: the code does not serialize decode-then-schedule; reordering
is prevented only when the phases do not interleave. (a) Non-overlapping
processing of one message is phase A followed by its own phase B, i.e. the
atomic `handleMessage`; (b) under such sequential processing, frames are
reported to `onAudioData` in exactly arrival order. -/
theorem in_order_sequential :
    (∀ (c : ℚ) (x : List ℚ) (s : ServiceState),
        handleMessage c (enqMsg x) s = phaseB x (phaseA c x s))
    ∧ (∀ (s : ServiceState) (msgs : List (ℚ × List ℚ)),
        s.outputCtx.isSome = true → (∀ p ∈ msgs, p.2 ≠ []) →
        audioDatas (runEnqueues s msgs).2 = msgs.map Prod.snd) := by
  refine ⟨handleMessage_phases, ?_⟩
  intro s msgs
  induction msgs generalizing s with
  | nil => intro _ _; rfl
  | cons hd rest ih =>
    intro hctx hne
    obtain ⟨c, x⟩ := hd
    have hx : x ≠ [] := hne (c, x) (List.mem_cons_self _ _)
    have h := hm_enq s c x hctx hx
    have hctx1 : (handleMessage c (enqMsg x) s).1.outputCtx.isSome = true := by
      rw [h]; exact hctx
    have happ : (runEnqueues s ((c, x) :: rest)).2
        = (handleMessage c (enqMsg x) s).2
          ++ (runEnqueues (handleMessage c (enqMsg x) s).1 rest).2 := rfl
    rw [happ, audioDatas_append]
    rw [show audioDatas (handleMessage c (enqMsg x) s).2 = [x] from by rw [h]; rfl]
    rw [ih (handleMessage c (enqMsg x) s).1 hctx1
      (fun p hp => hne p (List.mem_cons_of_mem _ hp))]
    rfl

/-- C9 amended witness: two frames processed without overlap are reported in
arrival order, and the phase decomposition agrees with `handleMessage` on a
concrete input. -/
theorem in_order_sequential_check :
    handleMessage 0 (enqMsg [1]) connState = phaseB [1] (phaseA 0 [1] connState)
    ∧ audioDatas (runEnqueues connState [(0, [1]), (0, [1, 1])]).2
        = [(0, [1]), (0, [1, 1])].map Prod.snd :=
  ⟨in_order_sequential.1 0 [1] connState,
   in_order_sequential.2 connState [(0, [1]), (0, [1, 1])] rfl (by decide)⟩

/-! ## C7 - codec round trip (spec-modelled) -/

/-- C7 counterexample: the spec's own transform pair is asymmetric (encode
scales by 32767, decode divides by 32768), so the round-trip error can exceed
one quantization step: at `s = 131065/131068` (which is in `[-1, 1]`),
`encode` gives `⌊32766.25 + 1/2⌋ = 32766`, `decode` gives `32766/32768`, and
`|32766/32768 - s| = 81916/(65534·32768) > 1/32768`. -/
theorem codec_round_trip_cex :
    (-1 ≤ (131065 : ℚ) / 131068 ∧ (131065 : ℚ) / 131068 ≤ 1)
    ∧ encodeFrame [(131065 : ℚ) / 131068] = [32766]
    ∧ roundTripWithin (1 / 32768) [(131065 : ℚ) / 131068] = false := by
  decide

/-- JS `Math.round` is `⌊x + 1/2⌋`, which is within `1/2` of `x`. -/
theorem round_abs_le (x : ℚ) : |(⌊x + 1 / 2⌋ : ℚ) - x| ≤ 1 / 2 := by
  have h1 : (⌊x + 1 / 2⌋ : ℚ) ≤ x + 1 / 2 := Int.floor_le _
  have h2 : x + 1 / 2 - 1 < ⌊x + 1 / 2⌋ := Int.sub_one_lt_floor _
  rw [abs_le]
  constructor <;> linarith

/-- Per-sample round-trip error bound for the spec's codec pair: at most
`3/2` of a quantization step, i.e. `3/65536`. -/
theorem decode_encode_sample (x : ℚ) (h1 : -1 ≤ x) (h2 : x ≤ 1) :
    |decodeSample (encodeSample x) - x| ≤ 3 / 65536 := by
  have hclamp : max (-1) (min 1 x) = x := by
    rw [min_eq_right h2, max_eq_right h1]
  unfold decodeSample encodeSample
  rw [hclamp]
  have hr := round_abs_le (x * 32767)
  rw [abs_le] at hr
  have key : |(⌊x * 32767 + 1 / 2⌋ : ℚ) - 32768 * x| ≤ 3 / 2 := by
    rw [abs_le]
    constructor <;> linarith
  rw [show (⌊x * 32767 + 1 / 2⌋ : ℚ) / 32768 - x
      = ((⌊x * 32767 + 1 / 2⌋ : ℚ) - 32768 * x) / 32768 from by ring]
  rw [abs_div, show |(32768 : ℚ)| = 32768 from by norm_num,
    div_le_iff₀ (by norm_num : (0 : ℚ) < 32768)]
  linarith

/-- C7 amended: for every raw sample sequence with all samples in `[-1, 1]`,
`decode (encode s)` reproduces each sample within `3/65536` - one and a half
quantization steps, the tight-order bound for the asymmetric 32767/32768
scaling pair (the claimed `1/32768` fails, see the counterexample). -/
theorem codec_round_trip (l : List ℚ) (h : ∀ x ∈ l, -1 ≤ x ∧ x ≤ 1) :
    roundTripWithin (3 / 65536) l = true := by
  induction l with
  | nil => rfl
  | cons a as ih =>
    have ha := h a (List.mem_cons_self _ _)
    have has : ∀ x ∈ as, -1 ≤ x ∧ x ≤ 1 := fun x hx => h x (List.mem_cons_of_mem _ hx)
    unfold roundTripWithin encodeFrame decodeFrame at ih ⊢
    simp only [List.map_cons, List.zip_cons_cons, List.all_cons]
    rw [Bool.and_eq_true]
    exact ⟨decide_eq_true (decode_encode_sample a ha.1 ha.2), ih has⟩

/-- C7 amended witness: boundary and interior samples, including the sample
that defeats the `1/32768` bound, all round-trip within `3/65536`. -/
theorem codec_round_trip_check :
    roundTripWithin (3 / 65536) [1, -1, 0, 1 / 2, 131065 / 131068] = true :=
  codec_round_trip [1, -1, 0, 1 / 2, 131065 / 131068] (by decide)

end Soul
